import Mathlib

/-!
Verification development for the evaldown repository: snippet extraction,
flag resolution, the snippet collection operations, console interception
and the batch orchestrator.

Sources embedded directly: `lib/Evaldown.js`, `lib/InspectedConsole.js`.
The snippet engine (`lib/extractSnippets.js`, `lib/md/Snippets.js`) is not
present in the source tree; those components are modelled from the
specification, with every behavioural choice pinned to the repository's
own test suites where the tests exercise it.

Strings are manipulated as `List Char` throughout so that every function
is structurally computable and concrete runs reduce inside the kernel.
-/

/-! ## Flag directives (spec section 4.1, FlagParser)

`parse(text)` splits on commas, trims whitespace around key, colon and
value, coerces the bare literals `true`/`false` to booleans and keeps any
other value as a string.  Malformed entries (no colon, empty key) are
dropped silently. -/

/-- A flag value: boolean for the literals `true`/`false`, string otherwise. -/
inductive FlagVal
  | b (val : Bool)
  | s (val : String)
deriving DecidableEq, Repr

/-- Flags are an insertion-ordered mapping from names to flag values,
mirroring a JavaScript object literal. -/
abbrev Flags := List (String × FlagVal)

/-- First-match association lookup (keys are unique by construction). -/
def lookupFlag : Flags → String → Option FlagVal
  | [], _ => none
  | (k, v) :: rest, key => if k = key then some v else lookupFlag rest key

/-- JavaScript object assignment: overwrite an existing key in place,
otherwise append at the end. -/
def setFlag : Flags → String → FlagVal → Flags
  | [], key, v => [(key, v)]
  | (k, w) :: rest, key, v =>
    if k = key then (k, v) :: rest else (k, w) :: setFlag rest key v

/-- Spread-merge of two flag objects; entries of `over` overwrite
same-named entries of `base` (JavaScript object spread semantics). -/
def overlayFlags (base over : Flags) : Flags :=
  over.foldl (fun fs kv => setFlag fs kv.1 kv.2) base

/-- Whitespace for flag-text trimming. -/
def isWsChar (c : Char) : Bool :=
  c = ' ' || c = '\t'

/-- Strip leading and trailing whitespace. -/
def trimChars (l : List Char) : List Char :=
  ((l.dropWhile isWsChar).reverse.dropWhile isWsChar).reverse

/-- Split a character list on every occurrence of a separator. -/
def splitOnChar (sep : Char) : List Char → List (List Char)
  | [] => [[]]
  | c :: rest =>
    let r := splitOnChar sep rest
    if c = sep then [] :: r
    else
      match r with
      | [] => [[c]]
      | h :: t => (c :: h) :: t

/-- Split at the first occurrence of a separator, if any. -/
def splitFirst (sep : Char) : List Char → Option (List Char × List Char)
  | [] => none
  | c :: rest =>
    if c = sep then some ([], rest)
    else (splitFirst sep rest).map (fun p => (c :: p.1, p.2))

/-- A bare `true`/`false` flag value is coerced to a boolean; any other
value is kept as a string (spec section 4.1). -/
def parseFlagValue (v : List Char) : FlagVal :=
  if v = ("true").data then .b true
  else if v = ("false").data then .b false
  else .s (String.mk v)

/-- One comma-separated `key:value` entry; entries without a colon or with
an empty key are malformed and dropped. -/
def parseFlagEntry (part : List Char) : Option (String × FlagVal) :=
  match splitFirst ':' part with
  | none => none
  | some kv =>
    let key := trimChars kv.1
    if key = [] then none
    else some (String.mk key, parseFlagValue (trimChars kv.2))

/-- Modelled from the spec: the FlagParser of the missing
`lib/extractSnippets.js`.  Splits the directive text on commas and folds
the well-formed entries into a flag object, later entries overwriting
earlier ones. -/
def parseFlags (text : List Char) : Flags :=
  (splitOnChar ',' text).foldl
    (fun fs part =>
      match parseFlagEntry part with
      | some kv => setFlag fs kv.1 kv.2
      | none => fs)
    []

/-! ## Blocks (spec section 3) -/

/-- The capture kind recorded on a block's output. -/
inductive OutputKind
  | result
  | console
  | error
deriving DecidableEq, Repr

/-- The output record populated on a block during evaluation. -/
structure SnippetOutput where
  kind : OutputKind
  text : String
deriving DecidableEq, Repr

/-- One fenced region extracted from a markdown document. -/
structure Block where
  lang : String
  flags : Flags
  index : Nat
  code : String
  output : Option SnippetOutput := none
  transpiled : Option String := none
deriving DecidableEq, Repr

/-! ## Snippet extraction (spec section 4.2)

Modelled from the spec: `lib/extractSnippets.js` is missing from the
source tree.  The fence scan, language normalization, two-source flag
resolution and index bookkeeping follow spec section 4.2, and every
observable choice is pinned to the repository's extractSnippets test
suite (`src/unnamed/part_002`) and the `Snippets.fromMarkdown` test
(`src/unnamed/part_003`): flags are read from any immediately preceding
HTML comment; when a marker is configured the comment must carry it and
the block's index is then the comment's offset, while a marker-less
extraction always reports the fence's own offset ("skips past a preceding
HTML comment when providing the index"); `evaluate:true` is defaulted for
every block (the fromMarkdown test expects it on `output` blocks too). -/

/-- `js` is normalized to `javascript`; other tags are kept. -/
def normalizeLang (l : List Char) : String :=
  if l = ("js").data then ("javascript") else String.mk l

/-- Flags defaulted onto every block before the two directive sources are
overlaid. -/
def defaultFlags : Flags := [(("evaluate"), .b true)]

/-- The inner text of an HTML comment line `<!-- ... -->`, if the line is
one. -/
def commentInner (line : List Char) : Option (List Char) :=
  let o := ("<!--").data
  let c := ("-->").data
  if o.isPrefixOf line && decide (7 ≤ line.length)
      && c.isPrefixOf (line.drop (line.length - 3)) then
    some ((line.drop 4).take (line.length - 7))
  else none

/-- The directive text carried by a comment: with no configured marker the
whole comment body is directive text; with a marker the body must start
with it and the remainder is the directive text. -/
def directiveFlagsText (marker : Option (List Char)) (inner : List Char) :
    Option (List Char) :=
  match marker with
  | none => some inner
  | some m =>
    let t := inner.dropWhile isWsChar
    if m.isPrefixOf t then some (t.drop m.length) else none

/-- The three-backtick fence marker. -/
def fenceMarker : List Char := ("```").data

/-- Lines of a document annotated with the character offset at which each
line starts. -/
def offsetLines : Nat → List (List Char) → List (Nat × List Char)
  | _, [] => []
  | off, l :: rest => (off, l) :: offsetLines (off + l.length + 1) rest

/-- Join code lines back with newlines. -/
def joinNl : List (List Char) → List Char
  | [] => []
  | [l] => l
  | l :: rest => l ++ '\n' :: joinNl rest

/-- Consume lines up to and including the closing fence, returning the
code lines and the remaining lines. -/
def splitAtClosing : List (Nat × List Char) → List (List Char) × List (Nat × List Char)
  | [] => ([], [])
  | (_, l) :: rest =>
    if fenceMarker.isPrefixOf l then ([], rest)
    else
      let p := splitAtClosing rest
      (l :: p.1, p.2)

/-- The fence scan: walk the offset-annotated lines carrying the directly
preceding line (for comment lookup), emit a block for each fenced region.
The `fuel` argument bounds the recursion by the number of lines; the
entry point supplies the exact line count, which each step strictly
consumes. -/
def scanFences (marker : Option (List Char)) :
    Nat → Option (Nat × List Char) → List (Nat × List Char) → List Block
  | 0, _, _ => []
  | _, _, [] => []
  | fuel + 1, prev, (off, line) :: rest =>
    if fenceMarker.isPrefixOf line && !(line.drop 3).isEmpty then
      let tag := line.drop 3
      let parts :=
        match splitFirst '#' tag with
        | none => (tag, ([] : Flags))
        | some p => (p.1, parseFlags p.2)
      let cinfo : Option (Nat × List Char) :=
        match prev with
        | none => none
        | some pl =>
          match commentInner pl.2 with
          | none => none
          | some inner =>
            match directiveFlagsText marker inner with
            | none => none
            | some ftext => some (pl.1, ftext)
      let commentFlags : Flags :=
        match cinfo with
        | some ci => parseFlags ci.2
        | none => []
      let idx : Nat :=
        match marker, cinfo with
        | some _, some ci => ci.1
        | _, _ => off
      let body := splitAtClosing rest
      { lang := normalizeLang (trimChars parts.1)
        flags := overlayFlags (overlayFlags defaultFlags commentFlags) parts.2
        index := idx
        code := String.mk (joinNl body.1) } :: scanFences marker fuel none body.2
    else
      scanFences marker fuel (some (off, line)) rest

/-- Modelled from the spec: the entry point of the missing
`lib/extractSnippets.js`. -/
def extractSnippets (marker : Option String) (md : String) : List Block :=
  let lines := offsetLines 0 (splitOnChar '\n' md.data)
  scanFences (marker.map String.data) lines.length none lines

/-! ## Snippets collection (spec section 4.3)

Modelled from the spec: `lib/md/Snippets.js` is missing from the source
tree.  The collection operations, the one-shot evaluation guard, the
TypeScript configuration checks and the error messages follow spec
sections 4.3, 4.4 and 7, pinned to the Snippets test suite
(`src/unnamed/part_003`), which fixes the literal failure messages. -/

/-- A per-block failure record; carries the failure message
(`errors.SnippetProcessingError` wraps the original error under the same
message). -/
structure SnippetProcessingError where
  message : String
deriving DecidableEq, Repr

/-- Failure message for an `output` block with no preceding code block
(pinned by the check/getTests tests). -/
def noMatchMsg : String := "no matching code block for output snippet"

/-- Failure message for an `output` block whose preceding code block is
hidden (pinned by the getTests test). -/
def hiddenMatchMsg : String := "cannot match hidden code block to output snippet"

/-- The snippet collection: the ordered blocks plus the one-shot
evaluation guard. -/
structure Snippets where
  items : List Block
  evaluated : Bool := false
deriving DecidableEq, Repr

/-- `get(index)`: lookup by position. -/
def Snippets.get (self : Snippets) (i : Nat) : Option Block :=
  self.items.get? i

/-- The structural-consistency walk shared by `check`: each
`output`-language block must be directly preceded by a code block, and
that code block must not carry `hide === true`.  Violations are collected
as position-indexed error records; the walk never aborts. -/
def checkWalk (prev : Option Block) (pos : Nat) :
    List Block → List (Nat × SnippetProcessingError)
  | [] => []
  | b :: rest =>
    if b.lang = ("output") then
      match prev with
      | none => (pos, ⟨noMatchMsg⟩) :: checkWalk none (pos + 1) rest
      | some p =>
        if lookupFlag p.flags ("hide") = some (.b true) then
          (pos, ⟨hiddenMatchMsg⟩) :: checkWalk none (pos + 1) rest
        else checkWalk none (pos + 1) rest
    else checkWalk (some b) (pos + 1) rest

/-- `check()`: validate pairing consistency without executing code;
returns the violations as data and never throws. -/
def Snippets.check (self : Snippets) : List (Nat × SnippetProcessingError) :=
  checkWalk none 0 self.items

/-- One `{code, flags, output}` fixture produced by `getTests()`. -/
structure TestRecord where
  code : String
  flags : Flags
  output : Option String
deriving DecidableEq, Repr

/-- The pairing walk of `getTests()`: fold each code block together with
a directly following `output` block; an orphaned `output` block raises
`noMatchMsg`, one paired against a hidden code block raises
`hiddenMatchMsg`. -/
def getTestsWalk (pending : Option Block) :
    List Block → Except String (List TestRecord)
  | [] =>
    match pending with
    | none => .ok []
    | some p => .ok [⟨p.code, p.flags, none⟩]
  | b :: rest =>
    if b.lang = ("output") then
      match pending with
      | none => .error noMatchMsg
      | some p =>
        if lookupFlag p.flags ("hide") = some (.b true) then .error hiddenMatchMsg
        else (getTestsWalk none rest).map (fun ts => ⟨p.code, p.flags, some b.code⟩ :: ts)
    else
      match pending with
      | none => getTestsWalk (some b) rest
      | some p => (getTestsWalk (some b) rest).map (fun ts => ⟨p.code, p.flags, none⟩ :: ts)

/-- `getTests()`: produce the code/output fixtures or raise the pairing
error. -/
def Snippets.getTests (self : Snippets) : Except String (List TestRecord) :=
  getTestsWalk none self.items

/-! ## Evaluation engine (spec sections 4.4, 5, 7)

The engine is modelled with the two genuinely external effects as
parameters: `exec` stands for the host runtime executing one block's
(possibly transpiled) code, and `tsTr` for the external TypeScript
compiler.  Everything else — the one-shot guard, the TypeScript
configuration checks, sequential block processing, skip of non-`evaluate`
blocks, transpilation bookkeeping, abort-on-error and error aggregation —
is modelled from the spec. -/

/-- Outcome of executing one block's code in the host runtime: captured
output text (if any) or a thrown error's message. -/
inductive ExecOutcome
  | ok (captured : Option String)
  | err (msg : String)

/-- The capture mode selected for a run (spec section 4.4 step 4). -/
inductive Capture
  | ret
  | console
  | nowrap
deriving DecidableEq, Repr

/-- Options accepted by `evaluate()` (spec section 6), restricted to the
fields the engine itself consumes. -/
structure EvalOptions where
  capture : Capture := .ret
  transpileFn : Option (String → String) := none
  tsconfig : Option String := none
  preamble : Option String := none

/-- Rejection value of `evaluate()`: a plain error with a message
(one-shot guard, configuration errors) or the per-file aggregate
`FileEvaluationError` carrying the position-indexed block failures. -/
inductive EvalRejection
  | simpleError (msg : String)
  | fileEvaluationError (errors : List (Nat × SnippetProcessingError))
deriving DecidableEq, Repr

/-- Rejection message of the one-shot guard (pinned by the evaluate
test). -/
def twiceMsg : String := "the same snippets were evaluated twice"

/-- Configuration rejection when a generic transpile function accompanies
TypeScript snippets (pinned by the typescript tests). -/
def transpileConflictMsg : String := "transpileFn cannot be specified with TypeScript snippets"

/-- Configuration rejection when TypeScript snippets lack a tsconfig
descriptor (pinned by the typescript tests). -/
def tsconfigMissingMsg : String := "tsconfig must be specified with TypeScript snippets"

/-- JavaScript truthiness of a flag value as read by the engine. -/
def flagIsTruthy (fs : Flags) (key : String) : Bool :=
  match lookupFlag fs key with
  | some (.b bv) => bv
  | some (.s sv) => !(sv = ("")) 
  | none => false

/-- Output kind recorded for a successful capture under a given mode. -/
def captureKind : Capture → OutputKind
  | .console => .console
  | _ => .result

/-- Sequential per-block execution (spec section 4.4): skip blocks whose
`evaluate` flag is falsy and `output` blocks, transpile when a transpile
function is configured, execute, write the output record back onto the
block, and abort the remaining blocks after the first thrown error while
recording it.  Returns the updated blocks, the position-indexed errors
and the trace of code texts actually executed. -/
def runBlocks (exec : String → ExecOutcome) (tf : Option (String → String))
    (cap : Capture) (pos : Nat) :
    List Block → List Block × List (Nat × SnippetProcessingError) × List String
  | [] => ([], [], [])
  | b :: rest =>
    if b.lang = ("output") || !(flagIsTruthy b.flags ("evaluate")) then
      let r := runBlocks exec tf cap (pos + 1) rest
      (b :: r.1, r.2.1, r.2.2)
    else
      let code2 := (match tf with | some f => f b.code | none => b.code)
      let b2 := { b with transpiled := tf.map (fun f : String → String => f b.code) }
      match exec code2 with
      | .ok captured =>
        let out := captured.map (fun t => SnippetOutput.mk (captureKind cap) t)
        let r := runBlocks exec tf cap (pos + 1) rest
        ({ b2 with output := out } :: r.1, r.2.1, code2 :: r.2.2)
      | .err m =>
        ({ b2 with output := some ⟨.error, m⟩ } :: rest, [(pos, ⟨m⟩)], [code2])

/-- One evaluation run after the guards have passed: the pairing
violations found by the `check` walk seed the error aggregate, the
preamble (if any) is executed first, the blocks run sequentially, and the
promise rejects with the aggregate `FileEvaluationError` exactly when any
error was collected. -/
def evalRun (exec : String → ExecOutcome) (tf : Option (String → String))
    (opts : EvalOptions) (s : Snippets) :
    Except EvalRejection Unit × Snippets × List String :=
  let checkErrs := checkWalk none 0 s.items
  let r := runBlocks exec tf opts.capture 0 s.items
  let errs := checkErrs ++ r.2.1
  let s2 : Snippets := ⟨r.1, true⟩
  let trace := (match opts.preamble with | some p => [p] | none => []) ++ r.2.2
  (if errs.isEmpty then .ok () else .error (.fileEvaluationError errs), s2, trace)

/-- `evaluate(options)`: the one-shot guard fires first, regardless of
the options supplied; then the TypeScript configuration is validated
outright, before any code (preamble included) executes; then the run
proceeds, with the TypeScript path substituting the external TypeScript
compiler as the transpile function.  Returns the settled promise, the
updated collection and the trace of executed code texts. -/
def Snippets.evaluate (exec : String → ExecOutcome) (tsTr : String → String)
    (opts : EvalOptions) (self : Snippets) :
    Except EvalRejection Unit × Snippets × List String :=
  if self.evaluated then (.error (.simpleError twiceMsg), self, [])
  else
    let marked : Snippets := ⟨self.items, true⟩
    if self.items.any (fun b => b.lang = ("typescript")) then
      if opts.transpileFn.isSome then
        (.error (.simpleError transpileConflictMsg), marked, [])
      else
        match opts.tsconfig with
        | none => (.error (.simpleError tsconfigMissingMsg), marked, [])
        | some _ => evalRun exec (some tsTr) opts marked
    else evalRun exec opts.transpileFn opts marked

/-! ## InspectedConsole (`src/lib/InspectedConsole.js`)

The console-interception object.  Non-string values are handed to the
external value-inspection facility (`expect.inspect(value, 6)`); its
result is represented by the constructor `ConsoleLine.inspectedOut`
carrying the value and the nesting depth, and rendered through an
`inspect` parameter standing for that external facility.  The magicpen
styling (`jsString` versus `error`) is tracked as the boolean carried by
string lines; only the text content of the output objects is modelled. -/

/-- A value handed to a console method: a string or some host value. -/
inductive ConsoleValue (V : Type)
  | str (s : String)
  | val (v : V)
deriving DecidableEq, Repr

/-- The stream a console method is bound to (`log`/`info` against stdout,
`warn`/`error` against stderr). -/
inductive OutKind
  | stdout
  | stderr
deriving DecidableEq, Repr

/-- One recorded console line: the formatted text of a string argument
(with its error styling), or the pending inspection of a non-string
value at a recorded depth. -/
inductive ConsoleLine (V : Type)
  | strOut (text : String) (isError : Bool)
  | inspectedOut (v : V) (depth : Nat)
deriving DecidableEq, Repr

/-- The character class of the replace call in `stringToOutput`
(`/[\\\x00-\x1f']/g`): backslash, the control range, the single quote. -/
def isEscapedChar (c : Char) : Bool :=
  c = '\\' || c.toNat ≤ 31 || c = Char.ofNat 39

/-- The hex escape `\xNN` built by the replacement callback:
`\x${charCode < 16 ? "0" : ""}${charCode.toString(16)}`. -/
def jsHexEscape (n : Nat) : List Char :=
  '\\' :: 'x' :: (if n < 16 then '0' :: Nat.toDigits 16 n else Nat.toDigits 16 n)

/-- The replacement callback of `stringToOutput` (source lines 31-49):
named escapes for newline, carriage return, quote, backslash, tab,
backspace and form feed; hex escapes for every other matched character. -/
def escapeMatched (c : Char) : List Char :=
  if c = '\n' then [ '\\', 'n' ]
  else if c = '\r' then [ '\\', 'r' ]
  else if c = Char.ofNat 39 then [ '\\', Char.ofNat 39 ]
  else if c = '\\' then [ '\\', '\\' ]
  else if c = '\t' then [ '\\', 't' ]
  else if c = Char.ofNat 8 then [ '\\', 'b' ]
  else if c = Char.ofNat 12 then [ '\\', 'f' ]
  else jsHexEscape c.toNat

/-- `content.replace(/[\\\x00-\x1f']/g, callback)`: rewrite exactly the
matched characters through the replacement callback. -/
def escapeJsString (s : String) : String :=
  String.mk (s.data.flatMap (fun c => if isEscapedChar c then escapeMatched c else [c]))

/-- `stringToOutput`: the escaped content surrounded by single quotes. -/
def stringToOutputText (content : String) : String :=
  ("\x27") ++ escapeJsString content ++ ("\x27")

/-- The spec's description of the escaping, written from its words:
backslash and quote become their escape sequences, the named control
characters become their literal escape sequences, every other control
character becomes a `\xNN` hex escape, and all other characters pass
through unchanged. -/
def specEscapeChar (c : Char) : List Char :=
  if c = '\\' then [ '\\', '\\' ]
  else if c = Char.ofNat 39 then [ '\\', Char.ofNat 39 ]
  else if c = '\n' then [ '\\', 'n' ]
  else if c = '\r' then [ '\\', 'r' ]
  else if c = '\t' then [ '\\', 't' ]
  else if c = Char.ofNat 8 then [ '\\', 'b' ]
  else if c = Char.ofNat 12 then [ '\\', 'f' ]
  else if c.toNat ≤ 31 then jsHexEscape c.toNat
  else [c]

/-- The line record produced by `[symbols.line]` (source lines 85-96): a
string value is formatted via `stringToOutput` with error styling exactly
on stderr; any other value is handed to the inspection facility with
nesting depth 6. -/
def consoleLineRecord {V : Type} (out : OutKind) (v : ConsoleValue V) : ConsoleLine V :=
  match v with
  | .str s => .strOut (stringToOutputText s) (out = .stderr)
  | .val x => .inspectedOut x 6

/-- `[symbols.line]` pushes the record onto the output buffer. -/
def icLine {V : Type} (out : OutKind) (v : ConsoleValue V)
    (lines : List (ConsoleLine V)) : List (ConsoleLine V) :=
  lines ++ [consoleLineRecord out v]

/-- `makeBoundConsoleMethod` (source lines 11-21): a string first argument
records one line and discards the rest; otherwise every argument is
recorded in order through `[symbols.line]`. -/
def boundConsoleMethod {V : Type} (out : OutKind) (first : ConsoleValue V)
    (rest : List (ConsoleValue V)) (lines : List (ConsoleLine V)) :
    List (ConsoleLine V) :=
  match first with
  | .str s => icLine out (.str s) lines
  | .val _ => (first :: rest).foldl (fun ls a => icLine out a ls) lines

/-- The text of a recorded line, rendering pending inspections through
the external facility. -/
def lineTextOf {V : Type} (inspect : V → Nat → String) : ConsoleLine V → String
  | .strOut t _ => t
  | .inspectedOut v d => inspect v d

/-- `[symbols.toString]` (source lines 102-117): empty buffer serializes
to the empty string; otherwise the first line is appended and every
remaining line follows after a newline. -/
def icToString {V : Type} (inspect : V → Nat → String)
    (lines : List (ConsoleLine V)) : String :=
  match lines with
  | [] => ("")
  | l :: rest =>
    rest.foldl (fun acc x => acc ++ ("\n") ++ lineTextOf inspect x) (lineTextOf inspect l)

/-- Whether a recorded line is a pending inspection at depth exactly 6. -/
def isInspectedDepth6 {V : Type} : ConsoleLine V → Bool
  | .inspectedOut _ d => decide (d = 6)
  | .strOut _ _ => false

/-! ## Evaldown orchestrator (`src/lib/Evaldown.js`)

JavaScript values reaching `isValidExtension` and the extension
resolution in the constructor are embedded as a small value universe with
JavaScript truthiness. -/

/-- A JavaScript value as far as the extension handling observes it. -/
inductive JSVal
  | str (s : String)
  | bool (b : Bool)
  | num (n : Int)
  | undef
  | regex (pattern : String)
deriving DecidableEq, Repr

/-- The source text of the regex literal `/^\.([a-z]\.)*[a-z]/` in
`isValidExtension`. -/
def extPatternSource : String := "^\\.([a-z]\\.)*[a-z]"

/-- `typeof ext === "string"`. -/
def jsTypeofIsString : JSVal → Bool
  | .str _ => true
  | _ => false

/-- `isValidExtension` (source lines 37-39): the JavaScript `&&` returns
its left operand when falsy and its right operand otherwise — so a string
yields the regex literal itself (the regex is never tested against the
input) and anything else yields `false`. -/
def isValidExtension (ext : JSVal) : JSVal :=
  if jsTypeofIsString ext then .regex extPatternSource else .bool false

/-- JavaScript truthiness. -/
def jsTruthy : JSVal → Bool
  | .str s => !(s = (""))
  | .bool b => b
  | .num n => !(n = 0)
  | .undef => false
  | .regex _ => true

/-- The constructor's extension resolution (source lines 95-100):
`isValidExtension(ext) ? ext : dflt`. -/
def resolveExtension (ext : JSVal) (dflt : String) : JSVal :=
  if jsTruthy (isValidExtension ext) then ext else .str dflt

/-- A lowercase ASCII letter, the `[a-z]` class of the pattern. -/
def isAZ (c : Char) : Bool :=
  'a' ≤ c && c ≤ 'z'

/-- Matching `([a-z]\.)*[a-z]` against a prefix of the input, with the
regex engine's backtracking choice between closing the star and taking
another group iteration. -/
def extGroups : List Char → Bool
  | [] => false
  | [c] => isAZ c
  | c :: d :: rest => isAZ c && (true || (d = '.' && extGroups rest))

/-- What `/^\.([a-z]\.)*[a-z]/.test(ext)` would have returned: a leading
dot followed by a prefix match of the letter groups. -/
def regexTestExt (s : String) : Bool :=
  match s.data with
  | '.' :: rest => extGroups rest
  | _ => false

/-! ## Batch processing (`Evaldown#processFiles`, source lines 181-203)

The per-file pipeline (`processFile`: read, evaluate, write) is abstracted
as the fallible `run` parameter; the `Stats` object is represented by the
log of its `addSuccess`/`addError` calls. -/

/-- One entry recorded on the `Stats` object. -/
inductive StatsEntry (E : Type)
  | success (file : String)
  | failure (file : String) (err : E)
deriving DecidableEq, Repr

/-- The file an entry was recorded for. -/
def statsFile {E : Type} : StatsEntry E → String
  | .success f => f
  | .failure f _ => f

/-- `processFiles` (source lines 190-198): process the globbed files in
order; each file's failure is caught and recorded, and the loop
continues with the remaining files. -/
def processFiles {E : Type} (run : String → Except E Unit) :
    List String → List (StatsEntry E)
  | [] => []
  | f :: rest =>
    (match run f with
     | .ok _ => .success f
     | .error e => .failure f e) :: processFiles run rest

/-! ## Concrete documents used by the theorems

Taken from the repository's test suites. -/

/-- Test input of "should let the flags after the language specifier win"
(`src/unnamed/part_002`). -/
def overrideDoc : String := "<!-- foo:true -->\n```js#foo:false\nalert(\"Hello!\");\n```\n"

/-- Test input of "should extract flags from both a preceding HTML
command and after the language specifier" (`src/unnamed/part_002`). -/
def bothSourcesDoc : String := "<!-- foo:true -->\n```js#bar:false\nalert(\"Hello!\");\n```\n"

/-- A fence suffix carrying the two boolean literals and a free-form
value. -/
def literalsDoc : String := "```js#a:true,b:false,c:quux\nalert(\"Hello!\");\n```\n"

/-- Test input of "provides the index of the block"
(`src/unnamed/part_002`). -/
def plainIndexDoc : String := "foobar\n```js#foo:false\nalert(\"Hello!\");\n```\n"

/-- Test input of "skips past a preceding HTML comment when providing the
index" (`src/unnamed/part_002`): the comment spans offsets 7-23 and the
fence opens at offset 25. -/
def skipIndexDoc : String := "foobar\n<!-- foo: bar -->\n```js#foo:false\nalert(\"Hello!\");\n```\n"

/-- A marker-less extraction whose comment sits at offset 0 and
contributes a flag, with the fence opening at offset 18. -/
def commentAtZeroDoc : String := "<!-- foo:true -->\n```js\nalert(\"Hello!\");\n```\n"

/-- The `Snippets.fromMarkdown` test document (`src/unnamed/part_003`),
extracted with marker `evaldown`: the code fence opens at offset 24 and
the marked directive comment before the output fence sits at offset
148. -/
def fromMarkdownDoc : String := "Asserts deep equality.\n\n```javascript\nthrow new Error(\"foo\\n  at bar (/somewhere.js:1:2)\\n  at quux (/blah.js:3:4)\\n  at baz (/yadda.js:5:6)\")\n```\n\n<!-- evaldown cleanStackTrace:true -->\n```output\nfoo\n  at bar (/path/to/file.js:x:y)\n  at quux (/path/to/file.js:x:y)\n```"

/-- First-some choice on options, used to state lookup laws of the
overlay merge. -/
def optOr {A : Type} : Option A → Option A → Option A
  | some a, _ => some a
  | none, b => b

/-! ## Theorems -/

theorem lookupFlag_setFlag (fs : Flags) (key q : String) (v : FlagVal) :
    lookupFlag (setFlag fs key v) q = if key = q then some v else lookupFlag fs q := by
  induction fs with
  | nil => simp [setFlag, lookupFlag]
  | cons hd rest ih =>
    obtain ⟨k, w⟩ := hd
    by_cases hk : k = key <;> by_cases hq : key = q <;> by_cases hkq : k = q <;>
      simp_all [setFlag, lookupFlag]

theorem lookupFlag_append (l1 l2 : Flags) (q : String) :
    lookupFlag (l1 ++ l2) q = optOr (lookupFlag l1 q) (lookupFlag l2 q) := by
  induction l1 with
  | nil => simp [lookupFlag, optOr]
  | cons hd rest ih =>
    obtain ⟨k, v⟩ := hd
    by_cases h : k = q <;> simp [lookupFlag, h, ih, optOr]

theorem optOr_assoc {A : Type} (a b c : Option A) :
    optOr (optOr a b) c = optOr a (optOr b c) := by
  cases a <;> simp [optOr]

theorem optOr_none_right {A : Type} (a : Option A) : optOr a none = a := by
  cases a <;> simp [optOr]

theorem lookupFlag_overlayFlags (base over : Flags) (q : String) :
    lookupFlag (overlayFlags base over) q
      = optOr (lookupFlag over.reverse q) (lookupFlag base q) := by
  induction over generalizing base with
  | nil => simp [overlayFlags, lookupFlag, optOr]
  | cons hd t ih =>
    obtain ⟨k, v⟩ := hd
    have h1 : overlayFlags base ((k, v) :: t) = overlayFlags (setFlag base k v) t := rfl
    rw [h1, ih, List.reverse_cons, lookupFlag_append, optOr_assoc, lookupFlag_setFlag]
    congr 1
    by_cases h : k = q <;> simp [lookupFlag, h, optOr]

theorem lookupFlag_eq_none_of_not_mem (fs : Flags) (q : String)
    (h : q ∉ fs.map Prod.fst) : lookupFlag fs q = none := by
  induction fs with
  | nil => rfl
  | cons hd rest ih =>
    obtain ⟨k, v⟩ := hd
    simp only [List.map_cons, List.mem_cons] at h
    push_neg at h
    have hk : ¬ (k = q) := fun he => h.1 he.symm
    simp [lookupFlag, hk, ih h.2]

theorem mem_keys_setFlag (fs : Flags) (key q : String) (v : FlagVal) :
    q ∈ (setFlag fs key v).map Prod.fst ↔ q ∈ fs.map Prod.fst ∨ q = key := by
  induction fs with
  | nil => simp [setFlag]
  | cons hd rest ih =>
    obtain ⟨k, w⟩ := hd
    by_cases hk : k = key <;> simp [setFlag, hk, ih] <;> tauto

theorem nodupKeys_setFlag (fs : Flags) (key : String) (v : FlagVal)
    (h : (fs.map Prod.fst).Nodup) : ((setFlag fs key v).map Prod.fst).Nodup := by
  induction fs with
  | nil => simp [setFlag]
  | cons hd rest ih =>
    obtain ⟨k, w⟩ := hd
    simp only [List.map_cons, List.nodup_cons] at h
    by_cases hk : k = key
    · simpa [setFlag, hk, List.nodup_cons] using h
    · simp only [setFlag]
      rw [if_neg hk]
      simp only [List.map_cons, List.nodup_cons]
      refine ⟨?_, ih h.2⟩
      intro hmem
      rcases (mem_keys_setFlag rest key k v).mp hmem with hm | he
      · exact h.1 hm
      · exact hk he

theorem nodupKeys_parseFlags (text : List Char) :
    ((parseFlags text).map Prod.fst).Nodup := by
  have general : ∀ (parts : List (List Char)) (fs : Flags), (fs.map Prod.fst).Nodup →
      (((parts.foldl (fun fs part =>
          match parseFlagEntry part with
          | some kv => setFlag fs kv.1 kv.2
          | none => fs) fs)).map Prod.fst).Nodup := by
    intro parts
    induction parts with
    | nil => intro fs h; simpa using h
    | cons p rest ih =>
      intro fs h
      simp only [List.foldl_cons]
      cases parseFlagEntry p with
      | none => exact ih fs h
      | some kv => exact ih _ (nodupKeys_setFlag fs kv.1 kv.2 h)
  exact general _ [] (by simp)

theorem lookupFlag_reverse (fs : Flags) (q : String)
    (h : (fs.map Prod.fst).Nodup) : lookupFlag fs.reverse q = lookupFlag fs q := by
  induction fs with
  | nil => rfl
  | cons hd rest ih =>
    obtain ⟨k, v⟩ := hd
    simp only [List.map_cons, List.nodup_cons] at h
    rw [List.reverse_cons, lookupFlag_append, ih h.2]
    by_cases hq : k = q
    · subst hq
      rw [lookupFlag_eq_none_of_not_mem rest k h.1]
      simp [lookupFlag, optOr]
    · simp [lookupFlag, hq, optOr_none_right]

theorem flag_suffix_precedence (base : Flags) (sText : List Char) (q : String) :
    lookupFlag (overlayFlags base (parseFlags sText)) q
      = optOr (lookupFlag (parseFlags sText) q) (lookupFlag base q) := by
  rw [lookupFlag_overlayFlags, lookupFlag_reverse _ _ (nodupKeys_parseFlags sText)]

/-- Claim C1: the extracted flags of a block with both a directive comment
and a fence suffix are the merge of the two parsed sources, with the
fence-suffix value winning on every shared key (the general lookup law of
the overlay used by the extractor), and a well-formed suffix value
`true`/`false` is stored as the corresponding boolean while any other
value is stored as a string (witnessed end-to-end through
`extractSnippets` on the repository's own test documents). -/
theorem extractSnippets_flag_merge_precedence :
    (∀ (base : Flags) (sText : List Char) (q : String),
      lookupFlag (overlayFlags base (parseFlags sText)) q
        = optOr (lookupFlag (parseFlags sText) q) (lookupFlag base q))
    ∧ (extractSnippets none bothSourcesDoc).map Block.flags
        = [[(("evaluate"), .b true), (("foo"), .b true), (("bar"), .b false)]]
    ∧ (extractSnippets none overrideDoc).map Block.flags
        = [[(("evaluate"), .b true), (("foo"), .b false)]]
    ∧ (extractSnippets none literalsDoc).map Block.flags
        = [[(("evaluate"), .b true), (("a"), .b true), (("b"), .b false),
            (("c"), .s ("quux"))]] :=
  ⟨flag_suffix_precedence, by decide, by decide, by decide⟩

/-- Claim C6, counterexample: in a marker-less extraction the directive
comment at offset 0 is recognized (its `foo:true` flag is merged into the
block), yet the recorded index is 18 — the fence's offset — not the
comment's offset 0.  This is exactly the behaviour the repository's own
test "skips past a preceding HTML comment when providing the index" pins
down. -/
theorem extractSnippets_index_comment_cex :
    (extractSnippets none commentAtZeroDoc).map Block.flags
        = [[(("evaluate"), .b true), (("foo"), .b true)]]
    ∧ (extractSnippets none commentAtZeroDoc).map Block.index = [18]
    ∧ commentAtZeroDoc.data.take 17 = ("<!-- foo:true -->").data
    ∧ (extractSnippets none commentAtZeroDoc).map Block.index ≠ [0] := by
  refine ⟨by decide, by decide, by decide, by decide⟩

/-- Claim C6, amended: the recorded index is the offset of the preceding
directive comment only when the extractor is configured with a marker and
the comment bears it (the fromMarkdown document: fence at 24 with no
comment, marked comment at 148); in every other case — no comment at all,
or a marker-less extraction whose comment still contributes flags — the
index is the offset of the fence's opening marker (7 and 25 on the
index-test documents). -/
theorem extractSnippets_index_anchoring :
    (extractSnippets none plainIndexDoc).map Block.index = [7]
    ∧ (extractSnippets none skipIndexDoc).map Block.index = [25]
    ∧ (extractSnippets (some ("evaldown")) fromMarkdownDoc).map Block.index
        = [24, 148] := by
  refine ⟨by decide, by decide, by decide⟩

theorem evalRun_marks (exec : String → ExecOutcome) (tf : Option (String → String))
    (opts : EvalOptions) (s : Snippets) : (evalRun exec tf opts s).2.1.evaluated = true := rfl

theorem evaluate_marks (exec : String → ExecOutcome) (tsTr : String → String)
    (opts : EvalOptions) (s : Snippets) (h : s.evaluated = false) :
    (Snippets.evaluate exec tsTr opts s).2.1.evaluated = true := by
  unfold Snippets.evaluate
  simp only [h, Bool.false_eq_true, if_false]
  split
  · split
    · rfl
    · split
      · rfl
      · exact evalRun_marks _ _ _ _
  · exact evalRun_marks _ _ _ _

theorem evaluate_guarded (exec : String → ExecOutcome) (tsTr : String → String)
    (opts : EvalOptions) (s : Snippets) (h : s.evaluated = true) :
    Snippets.evaluate exec tsTr opts s = (.error (.simpleError twiceMsg), s, []) := by
  unfold Snippets.evaluate
  simp [h]

/-- Claim C2: `evaluate()` is single-shot.  After any first call on a
fresh collection — whatever executor, TypeScript compiler and options it
used and however it settled — a second call with arbitrary new options
rejects with the dedicated "evaluated twice" error and returns the
collection state produced by the first call unchanged (so the first
call's recorded outputs are untouched), executing nothing. -/
theorem snippets_evaluate_single_shot (exec1 exec2 : String → ExecOutcome)
    (tsTr1 tsTr2 : String → String) (opts1 opts2 : EvalOptions) (s : Snippets)
    (h : s.evaluated = false) :
    Snippets.evaluate exec2 tsTr2 opts2 (Snippets.evaluate exec1 tsTr1 opts1 s).2.1
      = (.error (.simpleError twiceMsg),
         (Snippets.evaluate exec1 tsTr1 opts1 s).2.1, []) :=
  evaluate_guarded _ _ _ _ (evaluate_marks exec1 tsTr1 opts1 s h)

/-- Witness for claim C2 at the empty collection of the repository's
"should reject if called twice" test. -/
theorem snippets_evaluate_single_shot_witness :
    Snippets.evaluate (fun _ => ExecOutcome.ok none) id {}
        ((Snippets.evaluate (fun _ => ExecOutcome.ok none) id {} ⟨[], false⟩).2.1)
      = (.error (.simpleError twiceMsg),
         (Snippets.evaluate (fun _ => ExecOutcome.ok none) id {} ⟨[], false⟩).2.1, []) :=
  snippets_evaluate_single_shot _ _ _ _ _ _ _ rfl

/-- Claim C3: on a collection whose only block is an `output`-language
block, `check()` returns (as data, without raising) exactly one
`SnippetProcessingError` at index 0 carrying the "no matching code block"
message, and `getTests()` raises with that same message. -/
theorem snippets_check_orphan_output (b : Block) (h : b.lang = ("output")) :
    Snippets.check ⟨[b], false⟩ = [(0, ⟨noMatchMsg⟩)]
    ∧ Snippets.getTests ⟨[b], false⟩ = .error noMatchMsg
    ∧ ("no matching code block").data.isPrefixOf noMatchMsg.data = true := by
  refine ⟨?_, ?_, by decide⟩
  · simp [Snippets.check, checkWalk, h]
  · simp [Snippets.getTests, getTestsWalk, h]

/-- Witness for claim C3 at the orphaned `output` block of the
repository's check/getTests tests. -/
theorem snippets_check_orphan_output_witness :
    Snippets.check ⟨[⟨("output"), [], 0, ("orphaned"), none, none⟩], false⟩
        = [(0, ⟨noMatchMsg⟩)]
    ∧ Snippets.getTests ⟨[⟨("output"), [], 0, ("orphaned"), none, none⟩], false⟩
        = .error noMatchMsg
    ∧ ("no matching code block").data.isPrefixOf noMatchMsg.data = true :=
  snippets_check_orphan_output _ rfl

/-- Claim C4: `getTests()` on a collection of a hidden executable block
followed by an `output` block raises the "cannot match hidden code block"
error, and that message is distinct from the no-preceding-block
message. -/
theorem snippets_getTests_hidden_block (b1 b2 : Block)
    (h1 : ¬ (b1.lang = ("output")))
    (h2 : lookupFlag b1.flags ("hide") = some (.b true))
    (h3 : b2.lang = ("output")) :
    Snippets.getTests ⟨[b1, b2], false⟩ = .error hiddenMatchMsg
    ∧ ¬ (hiddenMatchMsg = noMatchMsg)
    ∧ ("cannot match hidden code block").data.isPrefixOf hiddenMatchMsg.data = true := by
  refine ⟨?_, by decide, by decide⟩
  simp [Snippets.getTests, getTestsWalk, h1, h2, h3]

/-- Witness for claim C4 at the hidden-block pair of the repository's
getTests test. -/
theorem snippets_getTests_hidden_block_witness :
    Snippets.getTests
        ⟨[⟨("javascript"), [(("evaluate"), .b true), (("hide"), .b true)], 0,
            ("hidden code"), none, none⟩,
          ⟨("output"), [], 0, ("orphaned output"), none, none⟩], false⟩
      = .error hiddenMatchMsg
    ∧ ¬ (hiddenMatchMsg = noMatchMsg)
    ∧ ("cannot match hidden code block").data.isPrefixOf hiddenMatchMsg.data = true :=
  snippets_getTests_hidden_block _ _ (by decide) (by decide) rfl

/-- Claim C5: on a fresh collection containing a TypeScript block marked
for evaluation, `evaluate()` rejects with the tsconfig configuration
error when neither tsconfig nor a transpile function is supplied, and
rejects with the mutual-exclusion error whenever a generic transpile
function is supplied — in both cases with an empty execution trace, so
before any code (preamble included) has run. -/
theorem snippets_evaluate_typescript_config (exec : String → ExecOutcome)
    (tsTr : String → String) (opts : EvalOptions) (s : Snippets)
    (hfresh : s.evaluated = false) (b : Block) (hb : b ∈ s.items)
    (hts : b.lang = ("typescript"))
    (_hev : flagIsTruthy b.flags ("evaluate") = true) :
    (opts.transpileFn = none → opts.tsconfig = none →
      Snippets.evaluate exec tsTr opts s
        = (.error (.simpleError tsconfigMissingMsg), ⟨s.items, true⟩, []))
    ∧ (opts.transpileFn.isSome = true →
      Snippets.evaluate exec tsTr opts s
        = (.error (.simpleError transpileConflictMsg), ⟨s.items, true⟩, [])) := by
  have hany : s.items.any (fun x => x.lang = ("typescript")) = true :=
    List.any_eq_true.mpr ⟨b, hb, by simp [hts]⟩
  constructor
  · intro htf htc
    unfold Snippets.evaluate
    simp [hfresh, hany, htf, htc]
  · intro htf
    unfold Snippets.evaluate
    simp [hfresh, hany, htf]

/-- Witness for claim C5 at the repository's two typescript tests: a
single TypeScript block evaluated once with no options and once with a
conflicting transpile function. -/
theorem snippets_evaluate_typescript_config_witness :
    (Snippets.evaluate (fun _ => ExecOutcome.ok none) id {}
        ⟨[⟨("typescript"), [(("evaluate"), .b true)], 0, (""), none, none⟩], false⟩
      = (.error (.simpleError tsconfigMissingMsg),
         ⟨[⟨("typescript"), [(("evaluate"), .b true)], 0, (""), none, none⟩], true⟩, []))
    ∧ (Snippets.evaluate (fun _ => ExecOutcome.ok none) id { transpileFn := some id }
        ⟨[⟨("typescript"), [(("evaluate"), .b true)], 0, (""), none, none⟩], false⟩
      = (.error (.simpleError transpileConflictMsg),
         ⟨[⟨("typescript"), [(("evaluate"), .b true)], 0, (""), none, none⟩], true⟩, [])) :=
  ⟨(snippets_evaluate_typescript_config _ _ _ _ rfl
      ⟨("typescript"), [(("evaluate"), .b true)], 0, (""), none, none⟩
      (by simp) rfl (by decide)).1 rfl rfl,
   (snippets_evaluate_typescript_config _ _ _ _ rfl
      ⟨("typescript"), [(("evaluate"), .b true)], 0, (""), none, none⟩
      (by simp) rfl (by decide)).2 rfl⟩

theorem escChar_eq_spec (c : Char) :
    (if isEscapedChar c then escapeMatched c else [c]) = specEscapeChar c := by
  by_cases h1 : c = '\\'
  · subst h1; decide
  · by_cases h2 : c = Char.ofNat 39
    · subst h2; decide
    · by_cases h3 : c = '\n'
      · subst h3; decide
      · by_cases h4 : c = '\r'
        · subst h4; decide
        · by_cases h5 : c = '\t'
          · subst h5; decide
          · by_cases h6 : c = Char.ofNat 8
            · subst h6; decide
            · by_cases h7 : c = Char.ofNat 12
              · subst h7; decide
              · by_cases h8 : c.toNat ≤ 31
                · simp [isEscapedChar, escapeMatched, specEscapeChar,
                    h1, h2, h3, h4, h5, h6, h7, h8]
                · simp [isEscapedChar, escapeMatched, specEscapeChar,
                    h1, h2, h3, h4, h5, h6, h7, h8]

theorem escapeJsString_eq_spec (s : String) :
    escapeJsString s = String.mk (s.data.flatMap specEscapeChar) := by
  unfold escapeJsString
  congr 1
  have hl : ∀ l : List Char,
      l.flatMap (fun c => if isEscapedChar c then escapeMatched c else [c])
        = l.flatMap specEscapeChar := by
    intro l
    induction l with
    | nil => rfl
    | cons c t ih => simp only [List.flatMap_cons, escChar_eq_spec c, ih]
  exact hl s.data

theorem intercalate_go_foldl (sep : String) (xs : List String) (acc : String) :
    String.intercalate.go acc sep xs = xs.foldl (fun a e => a ++ sep ++ e) acc := by
  induction xs generalizing acc with
  | nil => rfl
  | cons x t ih => simp only [String.intercalate.go, List.foldl_cons, ih]

theorem icToString_eq_intercalate {V : Type} (inspect : V → Nat → String)
    (lines : List (ConsoleLine V)) :
    icToString inspect lines
      = String.intercalate ("\n") (lines.map (lineTextOf inspect)) := by
  cases lines with
  | nil => rfl
  | cons l rest =>
    simp only [icToString, List.map_cons, String.intercalate, intercalate_go_foldl,
      List.foldl_map]

/-- Claim C7: the console buffer serializes to the empty string when no
lines were recorded and to the recorded lines joined by single newlines in
recording order otherwise, and every string argument is recorded quoted in
single quotes with its content escaped per character exactly as the spec
describes (backslash, quote and the named control characters to their
escape sequences, every other control character to a `\xNN` hex
escape). -/
theorem inspectedConsole_serialization (V : Type) (inspect : V → Nat → String)
    (lines : List (ConsoleLine V)) (out : OutKind) (s : String) :
    icToString inspect ([] : List (ConsoleLine V)) = ("")
    ∧ icToString inspect lines
        = String.intercalate ("\n") (lines.map (lineTextOf inspect))
    ∧ (icLine out (.str s) lines).map (lineTextOf inspect)
        = lines.map (lineTextOf inspect)
            ++ [("\x27") ++ String.mk (s.data.flatMap specEscapeChar) ++ ("\x27")] := by
  refine ⟨rfl, icToString_eq_intercalate inspect lines, ?_⟩
  simp [icLine, consoleLineRecord, lineTextOf, stringToOutputText,
    escapeJsString_eq_spec]

/-- Claim C10, counterexample: calling a console method with a non-string
first argument and a string second argument records two lines, but the
second is the escaped-and-quoted string record, not a line passed through
the value-inspection facility at depth 6 — refuting the claim that every
line of the non-string branch goes through the inspection facility. -/
theorem boundConsoleMethod_mixed_args_cex :
    boundConsoleMethod .stdout (.val ()) [ConsoleValue.str ("hi")]
        ([] : List (ConsoleLine Unit))
      = [.inspectedOut () 6, .strOut ("\x27hi\x27") false]
    ∧ (boundConsoleMethod .stdout (.val ()) [ConsoleValue.str ("hi")]
        ([] : List (ConsoleLine Unit))).all isInspectedDepth6 = false := by
  refine ⟨by decide, by decide⟩

/-- Claim C10, amended: a string first argument records exactly one
escaped-and-quoted line and the remaining arguments are ignored; a
non-string first argument records one line per argument in order, each
dispatched through the line routine — non-string arguments to the
inspection facility at depth 6, string arguments to the
escaped-and-quoted form. -/
theorem boundConsoleMethod_dispatch (V : Type) (out : OutKind) (s : String)
    (first : ConsoleValue V) (rest : List (ConsoleValue V))
    (lines : List (ConsoleLine V)) (h : ∀ t : String, ¬ (first = .str t)) :
    boundConsoleMethod out (.str s) rest lines
      = lines ++ [.strOut (stringToOutputText s) (out = .stderr)]
    ∧ boundConsoleMethod out first rest lines
      = lines ++ (first :: rest).map (consoleLineRecord out) := by
  have hfold : ∀ (args : List (ConsoleValue V)) (acc : List (ConsoleLine V)),
      args.foldl (fun ls a => icLine out a ls) acc
        = acc ++ args.map (consoleLineRecord out) := by
    intro args
    induction args with
    | nil => intro acc; simp
    | cons a t ih =>
      intro acc
      rw [List.foldl_cons, ih]
      simp [icLine]
  constructor
  · rfl
  · cases first with
    | str t => exact absurd rfl (h t)
    | val v => simpa [boundConsoleMethod] using hfold (ConsoleValue.val v :: rest) lines

/-- Witness for the amended claim C10 at a mixed argument list. -/
theorem boundConsoleMethod_dispatch_witness :
    boundConsoleMethod .stdout (ConsoleValue.str ("x"))
        [ConsoleValue.val (), ConsoleValue.str ("y")] ([] : List (ConsoleLine Unit))
      = [] ++ [.strOut (stringToOutputText ("x")) (OutKind.stdout = OutKind.stderr)]
    ∧ boundConsoleMethod .stdout (ConsoleValue.val ())
        [ConsoleValue.val (), ConsoleValue.str ("y")] ([] : List (ConsoleLine Unit))
      = [] ++ ([ConsoleValue.val (), ConsoleValue.val (), ConsoleValue.str ("y")].map
          (consoleLineRecord OutKind.stdout)) :=
  boundConsoleMethod_dispatch Unit .stdout ("x") (.val ())
    [ConsoleValue.val (), ConsoleValue.str ("y")] []
    (by intro t hcontra; cases hcontra)

/-- Claim C8: for every string input `isValidExtension` returns the regex
object itself — a truthy value, never the result of testing the regex —
so the extension resolution accepts every string, including one the
pattern would have rejected; for every non-string input it returns
`false`. -/
theorem isValidExtension_accepts_all_strings (s : String) (v : JSVal)
    (h : jsTypeofIsString v = false) :
    isValidExtension (.str s) = .regex extPatternSource
    ∧ jsTruthy (isValidExtension (.str s)) = true
    ∧ resolveExtension (.str s) (".md") = .str s
    ∧ isValidExtension v = .bool false
    ∧ regexTestExt ("bogus") = false
    ∧ resolveExtension (.str ("bogus")) (".md") = .str ("bogus") := by
  refine ⟨rfl, rfl, rfl, ?_, by decide, by decide⟩
  simp [isValidExtension, h]

/-- Witness for claim C8 at a custom extension string and at the
non-string `undefined`. -/
theorem isValidExtension_accepts_all_strings_witness :
    isValidExtension (.str (".markdown")) = .regex extPatternSource
    ∧ jsTruthy (isValidExtension (.str (".markdown"))) = true
    ∧ resolveExtension (.str (".markdown")) (".md") = .str (".markdown")
    ∧ isValidExtension JSVal.undef = .bool false
    ∧ regexTestExt ("bogus") = false
    ∧ resolveExtension (.str ("bogus")) (".md") = .str ("bogus") :=
  isValidExtension_accepts_all_strings (".markdown") .undef rfl

/-- Claim C9: `processFiles` processes every globbed file in order —
each file of the batch yields exactly one stats entry, in batch order —
and a file whose processing fails is recorded as a failure while the
preceding and remaining files are processed exactly as they otherwise
would be; the loop itself never rejects. -/
theorem processFiles_continues_after_error (E : Type)
    (run : String → Except E Unit) (files files1 files2 : List String)
    (f : String) (e : E) (h : run f = .error e) :
    (processFiles run files).map statsFile = files
    ∧ processFiles run (files1 ++ f :: files2)
        = processFiles run files1 ++ .failure f e :: processFiles run files2 := by
  constructor
  · induction files with
    | nil => rfl
    | cons g t ih => cases hg : run g <;> simp [processFiles, hg, statsFile, ih]
  · induction files1 with
    | nil => simp [processFiles, h]
    | cons g t ih => cases hg : run g <;> simp [processFiles, hg, ih]

/-- Witness for claim C9 at a three-file batch whose middle file fails. -/
theorem processFiles_continues_after_error_witness :
    (processFiles
        (fun x => if x = ("bad.md") then Except.error ("boom") else Except.ok ())
        [("a.md"), ("bad.md"), ("b.md")]).map statsFile
      = [("a.md"), ("bad.md"), ("b.md")]
    ∧ processFiles
        (fun x => if x = ("bad.md") then Except.error ("boom") else Except.ok ())
        ([("a.md")] ++ ("bad.md") :: [("b.md")])
      = processFiles
          (fun x => if x = ("bad.md") then Except.error ("boom") else Except.ok ())
          [("a.md")]
        ++ .failure ("bad.md") ("boom")
          :: processFiles
            (fun x => if x = ("bad.md") then Except.error ("boom") else Except.ok ())
            [("b.md")] :=
  processFiles_continues_after_error String _ _ _ _ _ _ (by simp)
